import Mathlib

/-!
Verification of the lark_database repository's core routines: the SHA1PRNG
key derivation and AES-ECB payload decryption (src/utility/sha1prng.py and
src/sha1prng/sha1prng.py), the HMAC-SHA1 request signing
(src/utility/helpers.py, get_signature), the shard download / merge / order
pipeline (src/utility/helpers.py, src/fetcher.py, src/src/cinema_client.py).

Byte strings are modelled as List Nat with every entry below 256; text is
modelled as List Char (Unicode code points, as in Python str).
-/

set_option maxRecDepth 10000

namespace LarkDB

/-- Truncation to 32 bits, modelling hash arithmetic on 32-bit words. -/
def m32 (x : Nat) : Nat := x % 4294967296

/-- Left rotation on 32-bit words. -/
def rotl (n x : Nat) : Nat := m32 ((x <<< n) ||| (x >>> (32 - n)))

/-! ## SHA-1 (the hashlib.sha1 calls in both sha1prng.py files) -/

/-- Number of zero bytes of SHA-1 padding for a message of length l. -/
def sha1PadZeros (l : Nat) : Nat := (64 - ((l + 9) % 64)) % 64

/-- Big-endian bytes of a Nat, fixed width. -/
def beBytes : Nat → Nat → List Nat
  | 0, _ => []
  | w + 1, x => (x >>> (8 * w)) % 256 :: beBytes w x

/-- SHA-1 padding: 0x80, zeros, then the 64-bit big-endian bit length. -/
def sha1Pad (msg : List Nat) : List Nat :=
  msg ++ [0x80] ++ List.replicate (sha1PadZeros msg.length) 0 ++ beBytes 8 (8 * msg.length)

/-- Group bytes into big-endian 32-bit words, four bytes at a time. -/
def bytesToWords : List Nat → List Nat
  | b0 :: b1 :: b2 :: b3 :: rest =>
    (((b0 <<< 8 ||| b1) <<< 8 ||| b2) <<< 8 ||| b3) :: bytesToWords rest
  | _ => []

/-- Message-schedule expansion, newest word at the head of the accumulator. -/
def sha1ExpandRev : Nat → List Nat → List Nat
  | 0, acc => acc
  | n + 1, acc =>
    sha1ExpandRev n
      (rotl 1 (acc.getD 2 0 ^^^ acc.getD 7 0 ^^^ acc.getD 13 0 ^^^ acc.getD 15 0) :: acc)

/-- The 80 schedule words of one block, in round order. -/
def sha1Schedule (block : List Nat) : List Nat :=
  (sha1ExpandRev 64 (bytesToWords block).reverse).reverse

/-- Round function f of SHA-1. -/
def sha1F (i b c d : Nat) : Nat :=
  if i < 20 then (b &&& c) ||| ((0xffffffff ^^^ b) &&& d)
  else if i < 40 then b ^^^ c ^^^ d
  else if i < 60 then (b &&& c) ||| (b &&& d) ||| (c &&& d)
  else b ^^^ c ^^^ d

/-- Round constant K of SHA-1. -/
def sha1K (i : Nat) : Nat :=
  if i < 20 then 0x5a827999
  else if i < 40 then 0x6ed9eba1
  else if i < 60 then 0x8f1bbcdc
  else 0xca62c1d6

/-- The SHA-1 chaining state. -/
structure Sha1State where
  h0 : Nat
  h1 : Nat
  h2 : Nat
  h3 : Nat
  h4 : Nat

/-- Initial SHA-1 state. -/
def sha1Init : Sha1State := ⟨0x67452301, 0xefcdab89, 0x98badcfe, 0x10325476, 0xc3d2e1f0⟩

/-- One SHA-1 round step on the working variables. -/
def sha1Round (w : List Nat) (v : Nat × Nat × Nat × Nat × Nat) (i : Nat) :
    Nat × Nat × Nat × Nat × Nat :=
  match v with
  | (a, b, c, d, e) =>
    (m32 (rotl 5 a + sha1F i b c d + e + sha1K i + w.getD i 0), a, rotl 30 b, c, d)

/-- Compression of one 64-byte block into the chaining state. -/
def sha1Block (st : Sha1State) (block : List Nat) : Sha1State :=
  let w := sha1Schedule block
  match (List.range 80).foldl (sha1Round w) (st.h0, st.h1, st.h2, st.h3, st.h4) with
  | (a, b, c, d, e) =>
    ⟨m32 (st.h0 + a), m32 (st.h1 + b), m32 (st.h2 + c), m32 (st.h3 + d), m32 (st.h4 + e)⟩

/-- Split a list into 64-byte chunks; the fuel bounds the number of chunks. -/
def chunks64 : Nat → List Nat → List (List Nat)
  | 0, _ => []
  | _, [] => []
  | n + 1, l => l.take 64 :: chunks64 n (l.drop 64)

/-- Serialize the chaining state as the 20-byte big-endian digest. -/
def sha1Digest (st : Sha1State) : List Nat :=
  beBytes 4 st.h0 ++ beBytes 4 st.h1 ++ beBytes 4 st.h2 ++ beBytes 4 st.h3 ++ beBytes 4 st.h4

/-- SHA-1 of a byte string: 20-byte digest. -/
def sha1 (msg : List Nat) : List Nat :=
  let padded := sha1Pad msg
  sha1Digest ((chunks64 (padded.length) padded).foldl sha1Block sha1Init)

/-! ## Hex encoding (bytes.hex, str.upper, bytes.fromhex) -/

/-- One hex digit, lower case, as Python bytes.hex emits. -/
def hexDigit (n : Nat) : Char :=
  if n < 10 then Char.ofNat (48 + n) else Char.ofNat (87 + n)

/-- Lower-case hex encoding of a byte string (Python bytes.hex). -/
def bytesToHex : List Nat → List Char
  | [] => []
  | b :: rest => hexDigit (b / 16) :: hexDigit (b % 16) :: bytesToHex rest

/-- ASCII upper-casing of one character (the effect of str.upper here). -/
def upperChar (c : Char) : Char :=
  if 97 ≤ c.toNat ∧ c.toNat ≤ 122 then Char.ofNat (c.toNat - 32) else c

/-- Value of one hex digit, upper or lower case. -/
def hexVal (c : Char) : Nat :=
  if 48 ≤ c.toNat ∧ c.toNat ≤ 57 then c.toNat - 48
  else if 97 ≤ c.toNat ∧ c.toNat ≤ 102 then c.toNat - 87
  else if 65 ≤ c.toNat ∧ c.toNat ≤ 70 then c.toNat - 55
  else 0

/-- Hex string to bytes, two digits per byte (Python bytes.fromhex). -/
def hexToBytes : List Char → List Nat
  | c0 :: c1 :: rest => (16 * hexVal c0 + hexVal c1) :: hexToBytes rest
  | _ => []

/-- Code points of a string; equals its bytes for the ASCII data used here. -/
def chars (s : String) : List Char := s.data

/-- UTF-8 encoding of one character (Python str.encode). -/
def utf8Char (c : Char) : List Nat :=
  let n := c.toNat
  if n < 0x80 then [n]
  else if n < 0x800 then [0xc0 ||| (n >>> 6), 0x80 ||| (n &&& 0x3f)]
  else if n < 0x10000 then
    [0xe0 ||| (n >>> 12), 0x80 ||| ((n >>> 6) &&& 0x3f), 0x80 ||| (n &&& 0x3f)]
  else
    [0xf0 ||| (n >>> 18), 0x80 ||| ((n >>> 12) &&& 0x3f),
     0x80 ||| ((n >>> 6) &&& 0x3f), 0x80 ||| (n &&& 0x3f)]

/-- UTF-8 encoding of a string (Python str.encode). -/
def utf8 (s : List Char) : List Nat := s.flatMap utf8Char

/-! ## Key derivation: Decrypter.get_sha1prng_key in both sha1prng.py files.
Both copies are identical: two SHA-1 iterations over the encoded seed, hex,
upper case, first 32 characters. -/

/-- Decrypter.get_sha1prng_key over the UTF-8 bytes of the seed string. -/
def get_sha1prng_key (keyBytes : List Nat) : List Char :=
  ((bytesToHex (sha1 (sha1 keyBytes))).map upperChar).take 32

/-! ## Lemmas about the key derivation -/

theorem beBytes_length (w x : Nat) : (beBytes w x).length = w := by
  induction w generalizing x with
  | zero => rfl
  | succ n ih => simp [beBytes, ih]

theorem beBytes_lt (w x : Nat) : ∀ b ∈ beBytes w x, b < 256 := by
  induction w generalizing x with
  | zero => intro b hb; simp [beBytes] at hb
  | succ n ih =>
    intro b hb
    simp only [beBytes, List.mem_cons] at hb
    rcases hb with h | h
    · omega
    · exact ih _ b h

theorem sha1Digest_length (st : Sha1State) : (sha1Digest st).length = 20 := by
  simp [sha1Digest, beBytes_length]

theorem sha1Digest_lt (st : Sha1State) : ∀ b ∈ sha1Digest st, b < 256 := by
  intro b hb
  simp only [sha1Digest, List.mem_append] at hb
  rcases hb with (((h | h) | h) | h) | h <;> exact beBytes_lt _ _ b h

theorem sha1_length (msg : List Nat) : (sha1 msg).length = 20 := by
  simp [sha1, sha1Digest_length]

theorem sha1_lt (msg : List Nat) : ∀ b ∈ sha1 msg, b < 256 := by
  simp only [sha1]
  exact sha1Digest_lt _

theorem bytesToHex_length (l : List Nat) : (bytesToHex l).length = 2 * l.length := by
  induction l with
  | nil => rfl
  | cons b r ih => simp [bytesToHex, ih]; omega

theorem bytesToHex_take (l : List Nat) (k : Nat) :
    (bytesToHex l).take (2 * k) = bytesToHex (l.take k) := by
  induction l generalizing k with
  | nil => simp [bytesToHex]
  | cons b rest ih =>
    cases k with
    | zero => simp [bytesToHex]
    | succ m =>
      have h2 : 2 * (m + 1) = (2 * m) + 1 + 1 := by omega
      simp [bytesToHex, h2, List.take_succ_cons, ih]

theorem hexDigit_mem (n : Nat) (h : n < 16) :
    upperChar (hexDigit n) ∈ chars "0123456789ABCDEF" := by
  revert n
  decide

theorem bytesToHex_mem (l : List Nat) (hl : ∀ b ∈ l, b < 256) :
    ∀ c ∈ (bytesToHex l).map upperChar, c ∈ chars "0123456789ABCDEF" := by
  induction l with
  | nil => intro c hc; simp [bytesToHex] at hc
  | cons b rest ih =>
    intro c hc
    have hb : b < 256 := hl b (List.mem_cons_self _ _)
    simp only [bytesToHex, List.map_cons, List.mem_cons] at hc
    rcases hc with h | h | h
    · exact h ▸ hexDigit_mem _ (by omega)
    · exact h ▸ hexDigit_mem _ (by omega)
    · exact ih (fun x hx => hl x (List.mem_cons_of_mem _ hx)) c h

/-- C1: the derived key is the upper-case hex of the first 16 digest bytes,
is deterministic, and is always exactly 32 hexadecimal characters. -/
theorem C1_get_sha1prng_key_spec (s : List Nat) :
    get_sha1prng_key s = (bytesToHex ((sha1 (sha1 s)).take 16)).map upperChar
    ∧ (∀ t : List Nat, s = t → get_sha1prng_key s = get_sha1prng_key t)
    ∧ (get_sha1prng_key s).length = 32
    ∧ ∀ c ∈ get_sha1prng_key s, c ∈ chars "0123456789ABCDEF" := by
  have hlen : (sha1 (sha1 s)).length = 20 := sha1_length _
  have hmain : get_sha1prng_key s = (bytesToHex ((sha1 (sha1 s)).take 16)).map upperChar := by
    unfold get_sha1prng_key
    rw [← List.map_take]
    have : (32 : Nat) = 2 * 16 := by norm_num
    rw [this, bytesToHex_take]
  refine ⟨hmain, fun t ht => by rw [ht], ?_, ?_⟩
  · rw [hmain, List.length_map, bytesToHex_length, List.length_take, hlen]
    omega
  · rw [hmain]
    intro c hc
    refine bytesToHex_mem _ ?_ c hc
    intro b hb
    exact sha1_lt _ b (List.mem_of_mem_take hb)

/-- Witness for C1 at the repository's own seed string. -/
theorem C1_witness :
    get_sha1prng_key (utf8 (chars "democs")) = chars "E62965DCD6E50C965A29B1F474197743"
    ∧ (get_sha1prng_key (utf8 (chars "democs"))).length = 32
    ∧ 'E' ∈ chars "0123456789ABCDEF" := by
  have h := C1_get_sha1prng_key_spec (utf8 (chars "democs"))
  refine ⟨by decide, h.2.2.1, ?_⟩
  refine h.2.2.2 'E' ?_
  decide

/-! ## HMAC-SHA1 (the hmac.new call in src/utility/helpers.py) -/

/-- HMAC-SHA1 with a 64-byte block, as Python hmac.new(key, msg, sha1). -/
def hmacSha1 (key msg : List Nat) : List Nat :=
  let k0 := if key.length > 64 then sha1 key else key
  let kp := k0 ++ List.replicate (64 - k0.length) 0
  sha1 ((kp.map (fun b => b ^^^ 0x5c)) ++ sha1 ((kp.map (fun b => b ^^^ 0x36)) ++ msg))

/-! ## Parameter ordering: Python sorted(paramaters.items(), key = item 0).
Python compares strings by code points, lexicographically, case-sensitively. -/

/-- Python string comparison (strict, code-point lexicographic). -/
def lexLtB : List Char → List Char → Bool
  | [], [] => false
  | [], _ :: _ => true
  | _ :: _, [] => false
  | a :: as, b :: bs =>
    if a.toNat < b.toNat then true
    else if b.toNat < a.toNat then false
    else lexLtB as bs

/-- The non-strict key order used to model Python's stable sort by key. -/
def keyLe (p q : List Char × List Char) : Prop := lexLtB q.1 p.1 = false

theorem lexLtB_irrefl (a : List Char) : lexLtB a a = false := by
  induction a with
  | nil => rfl
  | cons x xs ih => simp [lexLtB, ih]

theorem lexLtB_trichotomy (a b : List Char) :
    lexLtB a b = true ∨ a = b ∨ lexLtB b a = true := by
  induction a generalizing b with
  | nil =>
    cases b with
    | nil => exact Or.inr (Or.inl rfl)
    | cons y ys => exact Or.inl rfl
  | cons x xs ih =>
    cases b with
    | nil => exact Or.inr (Or.inr rfl)
    | cons y ys =>
      by_cases hlt : x.toNat < y.toNat
      · exact Or.inl (by simp [lexLtB, hlt])
      · by_cases hgt : y.toNat < x.toNat
        · exact Or.inr (Or.inr (by simp [lexLtB, hgt]))
        · have hxy : x = y := by
            have : x.toNat = y.toNat := by omega
            exact Char.ofNat_toNat x ▸ Char.ofNat_toNat y ▸ congrArg Char.ofNat this
          rcases ih ys with h | h | h
          · exact Or.inl (by simp [lexLtB, hlt, hgt, h])
          · exact Or.inr (Or.inl (by rw [hxy, h]))
          · exact Or.inr (Or.inr (by simp [lexLtB, hxy, h, lt_irrefl]))

theorem lexLtB_asymm (a b : List Char) (h : lexLtB a b = true) : lexLtB b a = false := by
  induction a generalizing b with
  | nil =>
    cases b with
    | nil => exact absurd h (by simp [lexLtB])
    | cons y ys => rfl
  | cons x xs ih =>
    cases b with
    | nil => exact absurd h (by simp [lexLtB])
    | cons y ys =>
      by_cases hlt : x.toNat < y.toNat
      · have hgt : ¬ y.toNat < x.toNat := by omega
        simp [lexLtB, hgt, hlt]
      · by_cases hgt : y.toNat < x.toNat
        · exact absurd h (by simp [lexLtB, hlt, hgt])
        · have hrec : lexLtB xs ys = true := by
            have := h
            simp [lexLtB, hlt, hgt] at this
            exact this
          simp [lexLtB, hlt, hgt, ih ys hrec]

theorem lexLtB_trans (a b c : List Char) (hab : lexLtB a b = true)
    (hbc : lexLtB b c = true) : lexLtB a c = true := by
  induction a generalizing b c with
  | nil =>
    cases c with
    | nil =>
      cases b with
      | nil => exact absurd hab (by simp [lexLtB])
      | cons y ys => exact absurd hbc (by simp [lexLtB])
    | cons z zs => rfl
  | cons x xs ih =>
    cases b with
    | nil => exact absurd hab (by simp [lexLtB])
    | cons y ys =>
      cases c with
      | nil => exact absurd hbc (by simp [lexLtB])
      | cons z zs =>
        simp only [lexLtB] at hab hbc ⊢
        by_cases hxy : x.toNat < y.toNat
        · by_cases hyz : y.toNat < z.toNat
          · have hxz : x.toNat < z.toNat := by omega
            simp [hxz]
          · by_cases hzy : z.toNat < y.toNat
            · exact absurd hbc (by simp [hyz, hzy])
            · have hxz : x.toNat < z.toNat := by omega
              simp [hxz]
        · by_cases hyx : y.toNat < x.toNat
          · exact absurd hab (by simp [hxy, hyx])
          · by_cases hyz : y.toNat < z.toNat
            · have hxz : x.toNat < z.toNat := by omega
              simp [hxz]
            · by_cases hzy : z.toNat < y.toNat
              · exact absurd hbc (by simp [hyz, hzy])
              · have h1 : lexLtB xs ys = true := by simpa [hxy, hyx] using hab
                have h2 : lexLtB ys zs = true := by simpa [hyz, hzy] using hbc
                have hxz : ¬ x.toNat < z.toNat := by omega
                have hzx : ¬ z.toNat < x.toNat := by omega
                simp [hxz, hzx, ih ys zs h1 h2]

instance : DecidableRel keyLe := fun p q =>
  inferInstanceAs (Decidable (lexLtB q.1 p.1 = false))

instance : IsTotal (List Char × List Char) keyLe where
  total p q := by
    rcases lexLtB_trichotomy p.1 q.1 with h | h | h
    · exact Or.inl (lexLtB_asymm _ _ h)
    · refine Or.inl ?_
      show lexLtB q.1 p.1 = false
      rw [h]
      exact lexLtB_irrefl _
    · exact Or.inr (lexLtB_asymm _ _ h)

instance : IsTrans (List Char × List Char) keyLe where
  trans p q r hpq hqr := by
    unfold keyLe at hpq hqr ⊢
    cases hrp : lexLtB r.1 p.1 with
    | false => rfl
    | true =>
      exfalso
      rcases lexLtB_trichotomy q.1 p.1 with h | h | h
      · rw [h] at hpq; exact Bool.noConfusion hpq
      · rw [← h] at hrp; rw [hrp] at hqr; exact Bool.noConfusion hqr
      · have := lexLtB_trans _ _ _ hrp h
        rw [this] at hqr
        exact Bool.noConfusion hqr

/-- Python sorted(paramaters.items(), key = first component): a stable sort
by key in ascending code-point order. -/
def sortParams (params : List (List Char × List Char)) : List (List Char × List Char) :=
  List.insertionSort keyLe params

/-! ## get_signature (src/utility/helpers.py lines 94 to 122) -/

/-- get_signature: the canonical string is the fixed prefix, the api name,
a slash, the app key, then the key-value concatenation of the sorted
parameters; the result is the upper-case hex HMAC-SHA1 under the secret. -/
def get_signature (api_name : List Char) (paramaters : List (List Char × List Char))
    (app_key secret_key : List Char) : List Char :=
  let signature_factor_url :=
    chars "param2/1/alibaba.dme.lark/" ++ api_name ++ chars "/" ++ app_key
  let signature_factor_params :=
    (sortParams paramaters).foldl (fun acc p => acc ++ p.1 ++ p.2) []
  let signature_string := signature_factor_url ++ signature_factor_params
  (bytesToHex (hmacSha1 (utf8 secret_key) (utf8 signature_string))).map upperChar

theorem foldl_append_eq_flatMap (l : List (List Char × List Char)) (acc : List Char) :
    l.foldl (fun a p => a ++ p.1 ++ p.2) acc = acc ++ l.flatMap (fun p => p.1 ++ p.2) := by
  induction l generalizing acc with
  | nil => simp
  | cons p rest ih =>
    simp only [List.foldl_cons, List.flatMap_cons, ih]
    simp [List.append_assoc]

/-- C3: the signature is the upper-case hex HMAC-SHA1, keyed by the secret,
of the canonical string built from the prefix, api name, app key and the
key plus value concatenation of the parameters sorted by key ascending;
the sorted concatenation for the two insertion orders of b maps to 2, a
maps to 1 is a1b2 either way, and the signature is deterministic. -/
theorem C3_get_signature_spec (api_name app_key secret_key : List Char)
    (paramaters : List (List Char × List Char)) :
    get_signature api_name paramaters app_key secret_key
      = (bytesToHex (hmacSha1 (utf8 secret_key)
          (utf8 (chars "param2/1/alibaba.dme.lark/" ++ api_name ++ chars "/" ++ app_key
            ++ (sortParams paramaters).flatMap (fun p => p.1 ++ p.2))))).map upperChar
    ∧ List.Sorted keyLe (sortParams paramaters)
    ∧ (sortParams paramaters).Perm paramaters
    ∧ (sortParams [(chars "b", chars "2"), (chars "a", chars "1")]).flatMap
        (fun p => p.1 ++ p.2) = chars "a1b2"
    ∧ (sortParams [(chars "a", chars "1"), (chars "b", chars "2")]).flatMap
        (fun p => p.1 ++ p.2) = chars "a1b2"
    ∧ get_signature api_name [(chars "b", chars "2"), (chars "a", chars "1")] app_key
        secret_key
      = get_signature api_name [(chars "a", chars "1"), (chars "b", chars "2")] app_key
        secret_key := by
  have hchar : ∀ ps : List (List Char × List Char),
      get_signature api_name ps app_key secret_key
        = (bytesToHex (hmacSha1 (utf8 secret_key)
            (utf8 (chars "param2/1/alibaba.dme.lark/" ++ api_name ++ chars "/" ++ app_key
              ++ (sortParams ps).flatMap (fun p => p.1 ++ p.2))))).map upperChar := by
    intro ps
    unfold get_signature
    rw [foldl_append_eq_flatMap]
    simp [List.append_assoc]
  have hab : (sortParams [(chars "b", chars "2"), (chars "a", chars "1")]).flatMap
      (fun p => p.1 ++ p.2) = chars "a1b2" := by decide
  have hba : (sortParams [(chars "a", chars "1"), (chars "b", chars "2")]).flatMap
      (fun p => p.1 ++ p.2) = chars "a1b2" := by decide
  refine ⟨hchar paramaters, List.sorted_insertionSort keyLe paramaters,
    List.perm_insertionSort keyLe paramaters, hab, hba, ?_⟩
  rw [hchar, hchar, hab, hba]

/-! ## AES-128 (the Crypto.Cipher.AES calls, ECB mode, no padding).
The S-boxes are the FIPS-197 tables; the implementation is validated below
against the FIPS-197 appendix C.1 vector. -/

/-- Multiplication by x in GF(2^8) modulo the AES polynomial. -/
def xtime (b : Nat) : Nat :=
  if b &&& 0x80 ≠ 0 then ((b <<< 1) ^^^ 0x1b) &&& 0xff else b <<< 1

/-- GF(2^8) product by the Russian-peasant method. -/
def gmulAux : Nat → Nat → Nat → Nat → Nat
  | 0, _, _, p => p
  | n + 1, a, b, p =>
    gmulAux n (xtime a) (b >>> 1) (if b &&& 1 = 1 then p ^^^ a else p)

/-- GF(2^8) product. -/
def gmul (a b : Nat) : Nat := gmulAux 8 a b 0

/-- The AES S-box (FIPS-197 figure 7). -/
def sbox : List Nat := [
  0x63, 0x7c, 0x77, 0x7b, 0xf2, 0x6b, 0x6f, 0xc5, 0x30, 0x01, 0x67, 0x2b, 0xfe, 0xd7, 0xab, 0x76,
  0xca, 0x82, 0xc9, 0x7d, 0xfa, 0x59, 0x47, 0xf0, 0xad, 0xd4, 0xa2, 0xaf, 0x9c, 0xa4, 0x72, 0xc0,
  0xb7, 0xfd, 0x93, 0x26, 0x36, 0x3f, 0xf7, 0xcc, 0x34, 0xa5, 0xe5, 0xf1, 0x71, 0xd8, 0x31, 0x15,
  0x04, 0xc7, 0x23, 0xc3, 0x18, 0x96, 0x05, 0x9a, 0x07, 0x12, 0x80, 0xe2, 0xeb, 0x27, 0xb2, 0x75,
  0x09, 0x83, 0x2c, 0x1a, 0x1b, 0x6e, 0x5a, 0xa0, 0x52, 0x3b, 0xd6, 0xb3, 0x29, 0xe3, 0x2f, 0x84,
  0x53, 0xd1, 0x00, 0xed, 0x20, 0xfc, 0xb1, 0x5b, 0x6a, 0xcb, 0xbe, 0x39, 0x4a, 0x4c, 0x58, 0xcf,
  0xd0, 0xef, 0xaa, 0xfb, 0x43, 0x4d, 0x33, 0x85, 0x45, 0xf9, 0x02, 0x7f, 0x50, 0x3c, 0x9f, 0xa8,
  0x51, 0xa3, 0x40, 0x8f, 0x92, 0x9d, 0x38, 0xf5, 0xbc, 0xb6, 0xda, 0x21, 0x10, 0xff, 0xf3, 0xd2,
  0xcd, 0x0c, 0x13, 0xec, 0x5f, 0x97, 0x44, 0x17, 0xc4, 0xa7, 0x7e, 0x3d, 0x64, 0x5d, 0x19, 0x73,
  0x60, 0x81, 0x4f, 0xdc, 0x22, 0x2a, 0x90, 0x88, 0x46, 0xee, 0xb8, 0x14, 0xde, 0x5e, 0x0b, 0xdb,
  0xe0, 0x32, 0x3a, 0x0a, 0x49, 0x06, 0x24, 0x5c, 0xc2, 0xd3, 0xac, 0x62, 0x91, 0x95, 0xe4, 0x79,
  0xe7, 0xc8, 0x37, 0x6d, 0x8d, 0xd5, 0x4e, 0xa9, 0x6c, 0x56, 0xf4, 0xea, 0x65, 0x7a, 0xae, 0x08,
  0xba, 0x78, 0x25, 0x2e, 0x1c, 0xa6, 0xb4, 0xc6, 0xe8, 0xdd, 0x74, 0x1f, 0x4b, 0xbd, 0x8b, 0x8a,
  0x70, 0x3e, 0xb5, 0x66, 0x48, 0x03, 0xf6, 0x0e, 0x61, 0x35, 0x57, 0xb9, 0x86, 0xc1, 0x1d, 0x9e,
  0xe1, 0xf8, 0x98, 0x11, 0x69, 0xd9, 0x8e, 0x94, 0x9b, 0x1e, 0x87, 0xe9, 0xce, 0x55, 0x28, 0xdf,
  0x8c, 0xa1, 0x89, 0x0d, 0xbf, 0xe6, 0x42, 0x68, 0x41, 0x99, 0x2d, 0x0f, 0xb0, 0x54, 0xbb, 0x16]

/-- The AES inverse S-box (FIPS-197 figure 14). -/
def invSbox : List Nat := [
  0x52, 0x09, 0x6a, 0xd5, 0x30, 0x36, 0xa5, 0x38, 0xbf, 0x40, 0xa3, 0x9e, 0x81, 0xf3, 0xd7, 0xfb,
  0x7c, 0xe3, 0x39, 0x82, 0x9b, 0x2f, 0xff, 0x87, 0x34, 0x8e, 0x43, 0x44, 0xc4, 0xde, 0xe9, 0xcb,
  0x54, 0x7b, 0x94, 0x32, 0xa6, 0xc2, 0x23, 0x3d, 0xee, 0x4c, 0x95, 0x0b, 0x42, 0xfa, 0xc3, 0x4e,
  0x08, 0x2e, 0xa1, 0x66, 0x28, 0xd9, 0x24, 0xb2, 0x76, 0x5b, 0xa2, 0x49, 0x6d, 0x8b, 0xd1, 0x25,
  0x72, 0xf8, 0xf6, 0x64, 0x86, 0x68, 0x98, 0x16, 0xd4, 0xa4, 0x5c, 0xcc, 0x5d, 0x65, 0xb6, 0x92,
  0x6c, 0x70, 0x48, 0x50, 0xfd, 0xed, 0xb9, 0xda, 0x5e, 0x15, 0x46, 0x57, 0xa7, 0x8d, 0x9d, 0x84,
  0x90, 0xd8, 0xab, 0x00, 0x8c, 0xbc, 0xd3, 0x0a, 0xf7, 0xe4, 0x58, 0x05, 0xb8, 0xb3, 0x45, 0x06,
  0xd0, 0x2c, 0x1e, 0x8f, 0xca, 0x3f, 0x0f, 0x02, 0xc1, 0xaf, 0xbd, 0x03, 0x01, 0x13, 0x8a, 0x6b,
  0x3a, 0x91, 0x11, 0x41, 0x4f, 0x67, 0xdc, 0xea, 0x97, 0xf2, 0xcf, 0xce, 0xf0, 0xb4, 0xe6, 0x73,
  0x96, 0xac, 0x74, 0x22, 0xe7, 0xad, 0x35, 0x85, 0xe2, 0xf9, 0x37, 0xe8, 0x1c, 0x75, 0xdf, 0x6e,
  0x47, 0xf1, 0x1a, 0x71, 0x1d, 0x29, 0xc5, 0x89, 0x6f, 0xb7, 0x62, 0x0e, 0xaa, 0x18, 0xbe, 0x1b,
  0xfc, 0x56, 0x3e, 0x4b, 0xc6, 0xd2, 0x79, 0x20, 0x9a, 0xdb, 0xc0, 0xfe, 0x78, 0xcd, 0x5a, 0xf4,
  0x1f, 0xdd, 0xa8, 0x33, 0x88, 0x07, 0xc7, 0x31, 0xb1, 0x12, 0x10, 0x59, 0x27, 0x80, 0xec, 0x5f,
  0x60, 0x51, 0x7f, 0xa9, 0x19, 0xb5, 0x4a, 0x0d, 0x2d, 0xe5, 0x7a, 0x9f, 0x93, 0xc9, 0x9c, 0xef,
  0xa0, 0xe0, 0x3b, 0x4d, 0xae, 0x2a, 0xf5, 0xb0, 0xc8, 0xeb, 0xbb, 0x3c, 0x83, 0x53, 0x99, 0x61,
  0x17, 0x2b, 0x04, 0x7e, 0xba, 0x77, 0xd6, 0x26, 0xe1, 0x69, 0x14, 0x63, 0x55, 0x21, 0x0c, 0x7d]

/-- S-box lookup. -/
def sboxAt (n : Nat) : Nat := sbox.getD n 0

/-- Inverse S-box lookup. -/
def invSboxAt (n : Nat) : Nat := invSbox.getD n 0

/-- Group bytes into 4-byte words. -/
def words4 : List Nat → List (List Nat)
  | b0 :: b1 :: b2 :: b3 :: rest => [b0, b1, b2, b3] :: words4 rest
  | _ => []

/-- Byte-wise xor of two equal-length byte strings. -/
def xorW (a b : List Nat) : List Nat := List.zipWith (fun x y => x ^^^ y) a b

/-- RotWord of the AES key schedule. -/
def rotWord (w : List Nat) : List Nat := w.drop 1 ++ w.take 1

/-- SubWord of the AES key schedule. -/
def subWord (w : List Nat) : List Nat := w.map sboxAt

/-- Key-schedule tail: fuel counts the words still to generate; the newest
word sits at the head of the accumulator. -/
def keyExpandAux : Nat → Nat → List (List Nat) → List (List Nat)
  | 0, _, acc => acc.reverse
  | n + 1, rc, acc =>
    let prev := acc.headD []
    let t := if acc.length % 4 == 0 then xorW (subWord (rotWord prev)) [rc, 0, 0, 0] else prev
    keyExpandAux n (if acc.length % 4 == 0 then xtime rc else rc)
      (xorW (acc.getD 3 []) t :: acc)

/-- AES-128 key expansion: 44 round-key words from the 16-byte key. -/
def keyExpansion (key : List Nat) : List (List Nat) :=
  keyExpandAux 40 1 (words4 key).reverse

/-- The 16 bytes of round key r. -/
def roundKey (w : List (List Nat)) (r : Nat) : List Nat :=
  ((w.drop (4 * r)).take 4).foldr (· ++ ·) []

/-- InvShiftRows on the column-major 16-byte state. -/
def invShiftRows (s : List Nat) : List Nat :=
  (List.range 16).map (fun i => s.getD (i % 4 + 4 * ((i / 4 + 4 - i % 4) % 4)) 0)

/-- ShiftRows on the column-major 16-byte state. -/
def shiftRows (s : List Nat) : List Nat :=
  (List.range 16).map (fun i => s.getD (i % 4 + 4 * ((i / 4 + i % 4) % 4)) 0)

/-- Apply a function to each 4-byte column of the state. -/
def onColumns (f : List Nat → List Nat) : List Nat → List Nat
  | b0 :: b1 :: b2 :: b3 :: rest => f [b0, b1, b2, b3] ++ onColumns f rest
  | l => l

/-- One column of InvMixColumns. -/
def invMixColumn : List Nat → List Nat
  | [a, b, c, d] =>
    [gmul 14 a ^^^ gmul 11 b ^^^ gmul 13 c ^^^ gmul 9 d,
     gmul 9 a ^^^ gmul 14 b ^^^ gmul 11 c ^^^ gmul 13 d,
     gmul 13 a ^^^ gmul 9 b ^^^ gmul 14 c ^^^ gmul 11 d,
     gmul 11 a ^^^ gmul 13 b ^^^ gmul 9 c ^^^ gmul 14 d]
  | l => l

/-- One column of MixColumns. -/
def mixColumn : List Nat → List Nat
  | [a, b, c, d] =>
    [gmul 2 a ^^^ gmul 3 b ^^^ c ^^^ d,
     a ^^^ gmul 2 b ^^^ gmul 3 c ^^^ d,
     a ^^^ b ^^^ gmul 2 c ^^^ gmul 3 d,
     gmul 3 a ^^^ b ^^^ c ^^^ gmul 2 d]
  | l => l

/-- AES-128 decryption of one 16-byte block (FIPS-197 InvCipher). -/
def aesDecryptBlock (w : List (List Nat)) (ct : List Nat) : List Nat :=
  let s0 := xorW ct (roundKey w 10)
  let s := (List.range 9).foldl
    (fun s i =>
      onColumns invMixColumn
        (xorW ((invShiftRows s).map invSboxAt) (roundKey w (9 - i)))) s0
  xorW ((invShiftRows s).map invSboxAt) (roundKey w 0)

/-- AES-128 encryption of one 16-byte block (FIPS-197 Cipher). -/
def aesEncryptBlock (w : List (List Nat)) (pt : List Nat) : List Nat :=
  let s0 := xorW pt (roundKey w 0)
  let s := (List.range 9).foldl
    (fun s i =>
      xorW (onColumns mixColumn (shiftRows (s.map sboxAt))) (roundKey w (i + 1))) s0
  xorW (shiftRows (s.map sboxAt)) (roundKey w 10)

/-- Split into 16-byte blocks; the fuel bounds the number of blocks. -/
def chunks16 : Nat → List Nat → List (List Nat)
  | 0, _ => []
  | _, [] => []
  | n + 1, l => l.take 16 :: chunks16 n (l.drop 16)

/-- ECB-mode AES-128 decryption of a whole byte string. -/
def aesEcbDecrypt (key ct : List Nat) : List Nat :=
  ((chunks16 ct.length ct).map (aesDecryptBlock (keyExpansion key))).foldr (· ++ ·) []

/-- ECB-mode AES-128 encryption of a whole byte string. -/
def aesEcbEncrypt (key pt : List Nat) : List Nat :=
  ((chunks16 pt.length pt).map (aesEncryptBlock (keyExpansion key))).foldr (· ++ ·) []

/-- AES-128 matches the FIPS-197 appendix C.1 vector, both directions. -/
theorem aes_fips197_vector :
    aesEcbEncrypt (hexToBytes (chars "000102030405060708090a0b0c0d0e0f"))
        (hexToBytes (chars "00112233445566778899aabbccddeeff"))
      = hexToBytes (chars "69c4e0d86a7b0430d8cdb78070b4c55a")
    ∧ aesEcbDecrypt (hexToBytes (chars "000102030405060708090a0b0c0d0e0f"))
        (hexToBytes (chars "69c4e0d86a7b0430d8cdb78070b4c55a"))
      = hexToBytes (chars "00112233445566778899aabbccddeeff") := by
  constructor <;> decide

/-! ## Base64 (base64.b64decode and b64encode).
Characters outside the base64 alphabet are rejected here; the statements
below only use clean alphabets. -/

/-- Value of one base64 alphabet character. -/
def b64Val (c : Char) : Option Nat :=
  if 65 ≤ c.toNat ∧ c.toNat ≤ 90 then some (c.toNat - 65)
  else if 97 ≤ c.toNat ∧ c.toNat ≤ 122 then some (c.toNat - 71)
  else if 48 ≤ c.toNat ∧ c.toNat ≤ 57 then some (c.toNat + 4)
  else if c = '+' then some 62
  else if c = '/' then some 63
  else none

/-- Base64 decoding, four characters at a time, '=' padding at the end. -/
def b64Decode : List Char → Option (List Nat)
  | [] => some []
  | c0 :: c1 :: c2 :: c3 :: rest =>
    match b64Val c0, b64Val c1 with
    | some v0, some v1 =>
      if c2 = '=' ∧ c3 = '=' ∧ rest = [] then
        some [(v0 <<< 2) ||| (v1 >>> 4)]
      else
        match b64Val c2 with
        | some v2 =>
          if c3 = '=' ∧ rest = [] then
            some [(v0 <<< 2) ||| (v1 >>> 4), ((v1 &&& 15) <<< 4) ||| (v2 >>> 2)]
          else
            match b64Val c3, b64Decode rest with
            | some v3, some bs =>
              some ([(v0 <<< 2) ||| (v1 >>> 4), ((v1 &&& 15) <<< 4) ||| (v2 >>> 2),
                ((v2 &&& 3) <<< 6) ||| v3] ++ bs)
            | _, _ => none
        | none => none
    | _, _ => none
  | _ => none

/-- One base64 alphabet character from a 6-bit value. -/
def b64Char (d : Nat) : Char :=
  if d < 26 then Char.ofNat (65 + d)
  else if d < 52 then Char.ofNat (71 + d)
  else if d < 62 then Char.ofNat (d - 4)
  else if d = 62 then '+'
  else '/'

/-- Base64 encoding, three bytes at a time, '=' padding at the end. -/
def b64Encode : List Nat → List Char
  | [] => []
  | [b0] => [b64Char (b0 >>> 2), b64Char ((b0 &&& 3) <<< 4), '=', '=']
  | [b0, b1] =>
    [b64Char (b0 >>> 2), b64Char (((b0 &&& 3) <<< 4) ||| (b1 >>> 4)),
     b64Char ((b1 &&& 15) <<< 2), '=']
  | b0 :: b1 :: b2 :: rest =>
    [b64Char (b0 >>> 2), b64Char (((b0 &&& 3) <<< 4) ||| (b1 >>> 4)),
     b64Char (((b1 &&& 15) <<< 2) ||| (b2 >>> 6)), b64Char (b2 &&& 63)] ++ b64Encode rest

/-! ## The two Decrypter.decode variants -/

/-- Strict ASCII decoding (Python bytes.decode with the ASCII codec). -/
def asciiDecode (bs : List Nat) : Option (List Char) :=
  if bs.all (fun b => b < 128) then some (bs.map Char.ofNat) else none

/-- Right-strip of every trailing character contained in the strip set
(Python str.rstrip). -/
def rstrip (strip : List Char) (s : List Char) : List Char :=
  (s.reverse.dropWhile (fun c => strip.contains c)).reverse

/-- The strip set of src/sha1prng/sha1prng.py decode: the single-line
literal holding exactly the bytes 0x00 to 0x1f. -/
def stripSetControl : List Char := (List.range 32).map Char.ofNat

/-- One line break plus the 31 spaces of indentation inside the
triple-quoted literal of src/utility/sha1prng.py. -/
def indent31 : List Char := '\n' :: List.replicate 31 ' '

/-- The strip set of src/utility/sha1prng.py _remove_control_characters:
the triple-quoted literal spans six lines, so the line breaks and the 31
spaces of indentation of each continuation line are part of the string. -/
def stripSetUtility : List Char :=
  ((List.range 6).map Char.ofNat)
  ++ indent31 ++ ((List.range 6).map (fun i => Char.ofNat (6 + i)))
  ++ indent31 ++ ((List.range 6).map (fun i => Char.ofNat (12 + i)))
  ++ indent31 ++ ((List.range 6).map (fun i => Char.ofNat (18 + i)))
  ++ indent31 ++ ((List.range 6).map (fun i => Char.ofNat (24 + i)))
  ++ indent31 ++ ((List.range 2).map (fun i => Char.ofNat (30 + i)))

/-- The Decrypter object: both classes store the key derived from the
constructor seed in the sha1prng_key attribute. -/
structure Decrypter where
  sha1prng_key : List Char

/-- Decrypter.__init__ in both files. -/
def mkDecrypter (key : List Char) : Decrypter := ⟨get_sha1prng_key (utf8 key)⟩

/-- Decrypter.decode of src/utility/sha1prng.py: AES-ECB decryption of the
base64 input under the stored key, ASCII decoding, then the right strip. -/
def decodeUtility (d : Decrypter) (value : List Char) : Option (List Char) :=
  match b64Decode value with
  | none => none
  | some ct =>
    if ct.length % 16 = 0 then
      match asciiDecode (aesEcbDecrypt (hexToBytes d.sha1prng_key) ct) with
      | none => none
      | some txt => some (rstrip stripSetUtility txt)
    else none

/-- Decrypter.decode of src/sha1prng/sha1prng.py: the AES key is re-derived
inside decode from the literal seed string democs; the stored
sha1prng_key attribute is never read. -/
def decodeSha1prng (_ : Decrypter) (value : List Char) : Option (List Char) :=
  match b64Decode value with
  | none => none
  | some ct =>
    if ct.length % 16 = 0 then
      match asciiDecode (aesEcbDecrypt
          (hexToBytes (get_sha1prng_key (utf8 (chars "democs")))) ct) with
      | none => none
      | some txt => some (rstrip stripSetControl txt)
    else none

/-- C2: in src/sha1prng/sha1prng.py the decryption key does not come from
the construction secret: the derived keys of the seeds a and b differ, yet
the two Decrypters decode every ciphertext identically, because decode
re-derives its key from the hardcoded seed democs. -/
theorem C2_decode_ignores_secret :
    get_sha1prng_key (utf8 (chars "a")) ≠ get_sha1prng_key (utf8 (chars "b"))
    ∧ (∀ value : List Char,
        decodeSha1prng (mkDecrypter (chars "a")) value
          = decodeSha1prng (mkDecrypter (chars "b")) value)
    ∧ decodeSha1prng (mkDecrypter (chars "a")) (chars "AAAAAAAAAAAAAAAAAAAAAA==")
        = decodeSha1prng (mkDecrypter (chars "b")) (chars "AAAAAAAAAAAAAAAAAAAAAA==") := by
  exact ⟨by decide, fun _ => rfl, rfl⟩

/-- C4: src/utility/sha1prng.py strips more than the control range: its
strip set contains the space character, so a decrypted text ending in a
space (0x20, outside 0x00 to 0x1f) loses that space, while the single-line
strip set of src/sha1prng/sha1prng.py preserves it. -/
theorem C4_trailing_space_stripped :
    (' ' ∈ stripSetUtility ∧ ' ' ∉ stripSetControl)
    ∧ ((chars "ABCDEFGHIJKLMNO ").map Char.toNat).getLast? = some 0x20
    ∧ decodeUtility (mkDecrypter (chars "democs"))
        (b64Encode (aesEcbEncrypt
          (hexToBytes (get_sha1prng_key (utf8 (chars "democs"))))
          ((chars "ABCDEFGHIJKLMNO ").map Char.toNat)))
        = some (chars "ABCDEFGHIJKLMNO")
    ∧ decodeSha1prng (mkDecrypter (chars "democs"))
        (b64Encode (aesEcbEncrypt
          (hexToBytes (get_sha1prng_key (utf8 (chars "democs"))))
          ((chars "ABCDEFGHIJKLMNO ").map Char.toNat)))
        = some (chars "ABCDEFGHIJKLMNO ") := by
  refine ⟨by decide, by decide, by decide, by decide⟩

/-! ## The download, merge and order pipeline.
A file is a list of lines, a line a list of characters; the filesystem of
one query is an association list from paths to contents.  The gbk to utf-8
transcoding of downloaded bytes is assumed to succeed, so the network
oracle yields decoded line lists directly, or none for an httpx.HTTPError;
file writes are assumed to succeed (the OSError branch of the source
performs the same cleanup as the HTTPError branch). -/

/-- One physical line of a csv file. -/
abbrev Line := List Char

/-- The lines of one file. -/
abbrev Content := List Line

/-- A file path. -/
abbrev Path := List Char

/-- The on-disk state of one query: path to content, newest entry first. -/
abbrev FileSys := List (Path × Content)

/-- Python line.startswith with the comment marker. -/
def startsWithHash : Line → Bool
  | c :: _ => c = '#'
  | [] => false

/-- The get_filtered_lines helper of combine_data_files: every line opening
with the comment marker is dropped. -/
def get_filtered_lines (ls : Content) : Content :=
  ls.filter (fun l => !(startsWithHash l))

deriving instance DecidableEq for Except

/-- Result of combine_data_files: None for an empty path list, ValueError
when the first file keeps fewer than two lines, otherwise the merged lines. -/
inductive CombineResult where
  | noFiles : CombineResult
  | formatError : CombineResult
  | ok (lines : Content) : CombineResult
deriving DecidableEq

/-- combine_data_files (src/utility/helpers.py lines 125 to 178) over the
contents of the input files: header from the second filtered line of the
first file, then the filtered lines from index 2 of every file in order. -/
def combine_data_files (files : List Content) : CombineResult :=
  match files with
  | [] => .noFiles
  | first :: _ =>
    let first_lines := get_filtered_lines first
    if first_lines.length < 2 then .formatError
    else .ok (first_lines.getD 1 []
      :: files.flatMap (fun f => (get_filtered_lines f).drop 2))

/-- The DataFetchException raised by download_urls. -/
inductive DownloadError where
  | dataFetch : DownloadError
deriving DecidableEq

/-- Remove one path from the filesystem (os.remove). -/
def fsRemove (p : Path) (fs : FileSys) : FileSys :=
  fs.filter (fun e => !(e.1 == p))

/-- Create or overwrite one file (open with mode wb plus write). -/
def fsWrite (p : Path) (c : Content) (fs : FileSys) : FileSys := (p, c) :: fsRemove p fs

/-- Read one file's lines. -/
def fsRead (fs : FileSys) (p : Path) : Content :=
  ((fs.find? (fun e => e.1 == p)).map Prod.snd).getD []

/-- clear_files (src/utility/helpers.py lines 76 to 92): pop each tracked
path, newest first, and remove the file. -/
def clear_files (stack : List Path) (fs : FileSys) : FileSys :=
  stack.reverse.foldl (fun a p => fsRemove p a) fs

/-- One decimal digit character. -/
def digitChar (k : Nat) : Char := Char.ofNat (48 + k)

/-- Decimal rendering of a Nat (Python str of an int); fuel bounds the
digit count. -/
def natDecimalAux : Nat → Nat → List Char
  | 0, _ => []
  | fuel + 1, n =>
    if n < 10 then [digitChar n] else natDecimalAux fuel (n / 10) ++ [digitChar (n % 10)]

/-- Decimal rendering of a Nat, no leading zeros. -/
def natDecimal (n : Nat) : List Char := natDecimalAux (n + 1) n

/-- Value of a decimal digit string, used to invert natDecimal. -/
def digitsVal (l : List Char) : Nat := l.foldl (fun a c => 10 * a + (c.toNat - 48)) 0

/-- The newline and 23 spaces of indentation that the triple-quoted
f-string of download_urls embeds into every shard filename. -/
def fileIndent : List Char := '\n' :: List.replicate 23 ' '

/-- The shard filename download_urls builds for link i: a multi-line
f-string, so it contains two line breaks and their indentation. -/
def shardFilename (name date : List Char) (i : Nat) : Path :=
  name ++ chars "/" ++ fileIndent ++ name ++ fileIndent
    ++ chars "_(" ++ date ++ chars ")_part" ++ natDecimal i ++ chars ".csv"

/-- The single-line path the shard filename is often presumed to be. -/
def singleLineShardPath (name date : List Char) (i : Nat) : Path :=
  name ++ chars "/" ++ name ++ chars "_(" ++ date ++ chars ")_part"
    ++ natDecimal i ++ chars ".csv"

/-- Loop of download_urls: file_id, stack and filesystem are threaded; a
failed fetch clears every file written so far and raises DataFetchException. -/
def download_urls_go (name date : List Char) :
    List (Option Content) → Nat → List Path → FileSys →
      Except DownloadError (List Path) × FileSys
  | [], _, stack, fs => (.ok stack, fs)
  | none :: _, _, stack, fs => (.error .dataFetch, clear_files stack fs)
  | some c :: rest, i, stack, fs =>
    let filename := shardFilename name date i
    download_urls_go name date rest (i + 1) (stack ++ [filename]) (fsWrite filename c fs)

/-- download_urls (src/utility/helpers.py lines 49 to 73), with the map
lookup of the category resolved to the directory name and the decrypt plus
httpx.get of each encrypted link abstracted into the fetch oracle. -/
def download_urls (name date : List Char) (fetch : List (Option Content)) (fs : FileSys) :
    Except DownloadError (List Path) × FileSys :=
  download_urls_go name date fetch 0 [] fs

/-- The output filename of combine_data_files. -/
def outputFilename (name date : List Char) : Path :=
  name ++ chars "/" ++ name ++ chars "_(" ++ date ++ chars ").csv"

/-- How the tail of fetcher.get_financial_data ends. -/
inductive PipeError where
  | dataFetch : PipeError
  | mergeFormat : PipeError
  | noneCrash : PipeError
deriving DecidableEq

/-- The tail of get_financial_data in src/fetcher.py after the vendor
response: download every link, then combine_data_files with removal of the
inputs.  combine_data_files opens its output file before checking the
first input, so a format error leaves an empty output file as well; its
None result for an empty path list flows into order_by_time, whose
polars.read_csv(None) raises TypeError (modelled as noneCrash). -/
def fetcher_tail (name date : List Char) (fetch : List (Option Content)) :
    Except PipeError Path × FileSys :=
  match download_urls name date fetch [] with
  | (.error _, fs) => (.error .dataFetch, fs)
  | (.ok stack, fs) =>
    match combine_data_files (stack.map (fsRead fs)) with
    | .noFiles => (.error .noneCrash, fs)
    | .formatError => (.error .mergeFormat, fsWrite (outputFilename name date) [] fs)
    | .ok lines =>
      (.ok (outputFilename name date),
        fsWrite (outputFilename name date) lines (clear_files stack fs))

/-- The same tail in src/src/cinema_client.py: an empty link list returns
the empty string before downloading, and _process_downloaded_data removes
the downloaded shards when combine_data_files raises. -/
def cinema_tail (name date : List Char) (fetch : List (Option Content)) :
    Except PipeError Path × FileSys :=
  if fetch.isEmpty then (.ok (chars ""), [])
  else
    match download_urls name date fetch [] with
    | (.error _, fs) => (.error .dataFetch, fs)
    | (.ok stack, fs) =>
      match combine_data_files (stack.map (fsRead fs)) with
      | .noFiles => (.ok (chars ""), fs)
      | .formatError =>
        (.error .mergeFormat, clear_files stack (fsWrite (outputFilename name date) [] fs))
      | .ok lines =>
        (.ok (outputFilename name date),
          fsWrite (outputFilename name date) lines (clear_files stack fs))

/-! ## Input validation (src/fetcher.py get_financial_data, lines 35 to 43) -/

/-- Modelled from the spec: FINANCIAL_DATA_TYPE_MAP lives in the package
initializer of utility, which is not among the repository files here; the
key set C01 to C23 and the directory names are reproduced from the catalog
table in the src/__main__.py docstring. -/
def FINANCIAL_DATA_TYPE_MAP : List (List Char × List Char) := [
  (chars "C01", chars "影票订单数据"), (chars "C02", chars "商品订单数据"),
  (chars "C03", chars "发卡数据"), (chars "C04", chars "卡充值数据"),
  (chars "C05", chars "卡消费数据"), (chars "C06", chars "券回兑数据"),
  (chars "C07", chars "商品进销存数据"), (chars "C08", chars "商品出入库数据"),
  (chars "C09", chars "销售消耗原材料数据"), (chars "C10", chars "销售消耗品项数据"),
  (chars "C11", chars "会员卡续费数据"), (chars "C12", chars "会员卡退卡数据"),
  (chars "C13", chars "会员卡激活数据"), (chars "C14", chars "会员卡补卡换卡数据"),
  (chars "C15", chars "货品操作明细数据"), (chars "C16", chars "利润毛利数据移动加权平均"),
  (chars "C17", chars "利润毛利数据月末加权平均"), (chars "C18", chars "场次放映明细数据"),
  (chars "C19", chars "优惠券销售明细数据"), (chars "C20", chars "影票订单数据放映日期"),
  (chars "C21", chars "欠款核销明细查询"), (chars "C22", chars "计次卡明细数据"),
  (chars "C23", chars "联名卡订单数据")]

/-- The typed input errors of utility/exceptions.py. -/
inductive ValidationError where
  | invalidFinancialCategory : ValidationError
  | invalidTimespan : ValidationError
deriving DecidableEq

/-- The signed HTTP request that query_data would issue; producing one
means the network call is attempted. -/
structure YkyRequest where
  dataType : List Char
  searchDateType : List Char
  searchDate : List Char
deriving DecidableEq

/-- The validation prefix of get_financial_data in src/fetcher.py: the
category must be a key of the catalog and the timespan month or day;
nothing else is checked before the request is built and issued. -/
def fetcher_get_financial_data_request (financial_category timespan search_date : List Char) :
    Except ValidationError YkyRequest :=
  if !(FINANCIAL_DATA_TYPE_MAP.any (fun p => p.1 == financial_category)) then
    .error .invalidFinancialCategory
  else if !(timespan == chars "month" || timespan == chars "day") then
    .error .invalidTimespan
  else
    .ok ⟨financial_category, timespan, search_date⟩

/-! ## Lemmas: decimal rendering is injective -/

theorem digitChar_toNat (k : Nat) (h : k < 10) : (digitChar k).toNat = 48 + k := by
  revert k
  decide

theorem digitsVal_append_singleton (l : List Char) (c : Char) :
    digitsVal (l ++ [c]) = 10 * digitsVal l + (c.toNat - 48) := by
  simp [digitsVal, List.foldl_append]

theorem digitsVal_natDecimalAux :
    ∀ (fuel n : Nat), n < fuel → digitsVal (natDecimalAux fuel n) = n := by
  intro fuel
  induction fuel with
  | zero => intro n h; omega
  | succ f ih =>
    intro n h
    by_cases h10 : n < 10
    · have hd := digitChar_toNat n h10
      simp only [natDecimalAux, if_pos h10, digitsVal, List.foldl_cons, List.foldl_nil]
      omega
    · simp only [natDecimalAux, if_neg h10]
      rw [digitsVal_append_singleton, ih (n / 10) (by omega)]
      have hd := digitChar_toNat (n % 10) (by omega)
      omega

theorem natDecimal_inj (m n : Nat) (h : natDecimal m = natDecimal n) : m = n := by
  have hm := digitsVal_natDecimalAux (m + 1) m (by omega)
  have hn := digitsVal_natDecimalAux (n + 1) n (by omega)
  unfold natDecimal at h
  rw [h] at hm
  omega

theorem shardFilename_inj (name date : List Char) (m n : Nat)
    (h : shardFilename name date m = shardFilename name date n) : m = n := by
  have h0 := h
  simp only [shardFilename, List.append_assoc] at h0
  have h1 : natDecimal m ++ chars ".csv" = natDecimal n ++ chars ".csv" :=
    List.append_cancel_left (List.append_cancel_left (List.append_cancel_left
      (List.append_cancel_left (List.append_cancel_left (List.append_cancel_left
        (List.append_cancel_left (List.append_cancel_left h0)))))))
  exact natDecimal_inj m n (List.append_cancel_right h1)

/-! ## Lemmas: cleanup removes exactly the tracked files -/

theorem foldl_fsRemove_eq_filter (l : List Path) (fs : FileSys) :
    l.foldl (fun a p => fsRemove p a) fs = fs.filter (fun e => !(decide (e.1 ∈ l))) := by
  induction l generalizing fs with
  | nil => simp
  | cons p rest ih =>
    simp only [List.foldl_cons]
    rw [ih]
    unfold fsRemove
    rw [List.filter_filter]
    apply List.filter_congr
    intro e _
    by_cases hp : e.1 = p
    · have h1 : (e.1 == p) = true := by
        rw [hp]
        exact beq_self_eq_true p
      simp [h1, hp, List.mem_cons]
    · have h1 : (e.1 == p) = false := beq_eq_false_iff_ne.mpr hp
      by_cases hr : e.1 ∈ rest
      · simp [h1, hr, List.mem_cons]
      · simp [h1, hr, List.mem_cons, hp]

theorem clear_files_eq_filter (stack : List Path) (fs : FileSys) :
    clear_files stack fs = fs.filter (fun e => !(decide (e.1 ∈ stack))) := by
  rw [clear_files, foldl_fsRemove_eq_filter]
  apply List.filter_congr
  intro e _
  simp [List.mem_reverse]

/-! ## Lemmas: the download loop -/

theorem download_urls_go_fail (name date : List Char) (good : List Content)
    (rest : List (Option Content)) :
    ∀ (i : Nat) (stack : List Path) (fs : FileSys),
      (∀ e ∈ fs, e.1 ∈ stack) →
      download_urls_go name date (good.map some ++ none :: rest) i stack fs
        = (.error .dataFetch, []) := by
  induction good with
  | nil =>
    intro i stack fs h
    simp only [List.map_nil, List.nil_append, download_urls_go]
    have hclear : clear_files stack fs = [] := by
      rw [clear_files_eq_filter]
      apply List.filter_eq_nil_iff.mpr
      intro e he
      simp [h e he]
    rw [hclear]
  | cons c good ih =>
    intro i stack fs h
    simp only [List.map_cons, List.cons_append, download_urls_go]
    apply ih
    intro e he
    simp only [fsWrite, List.mem_cons] at he
    rcases he with he | he
    · subst he
      simp
    · have : e ∈ fs := List.mem_of_mem_filter he
      exact List.mem_append_left _ (h e this)

theorem download_urls_go_ok (name date : List Char) (contents : List Content) :
    ∀ (i : Nat) (stack : List Path) (fs : FileSys),
      (download_urls_go name date (contents.map some) i stack fs).1
        = .ok (stack ++ (List.range' i contents.length).map (shardFilename name date)) := by
  induction contents with
  | nil => intro i stack fs; simp [download_urls_go]
  | cons c cs ih =>
    intro i stack fs
    simp only [List.map_cons, download_urls_go, List.length_cons]
    rw [ih]
    simp [List.range', List.append_assoc]

theorem download_urls_go_preserves (name date : List Char) (contents : List Content) :
    ∀ (i : Nat) (stack : List Path) (fs : FileSys) (e : Path × Content),
      e ∈ fs → (∀ k, i ≤ k → e.1 ≠ shardFilename name date k) →
      e ∈ (download_urls_go name date (contents.map some) i stack fs).2 := by
  induction contents with
  | nil => intro i stack fs e he _; simpa [download_urls_go] using he
  | cons c cs ih =>
    intro i stack fs e he hne
    simp only [List.map_cons, download_urls_go]
    apply ih (i + 1)
    · simp only [fsWrite, List.mem_cons]
      right
      simp only [fsRemove, List.mem_filter]
      refine ⟨he, ?_⟩
      have : (e.1 == shardFilename name date i) = false :=
        beq_eq_false_iff_ne.mpr (hne i le_rfl)
      simp [this]
    · intro k hk
      exact hne k (by omega)

theorem download_urls_go_writes (name date : List Char) (contents : List Content) :
    ∀ (i : Nat) (stack : List Path) (fs : FileSys) (j : Nat), j < contents.length →
      (shardFilename name date (i + j), contents.getD j [])
        ∈ (download_urls_go name date (contents.map some) i stack fs).2 := by
  induction contents with
  | nil => intro i stack fs j hj; simp at hj
  | cons c cs ih =>
    intro i stack fs j hj
    simp only [List.map_cons, download_urls_go]
    cases j with
    | zero =>
      apply download_urls_go_preserves
      · simp [fsWrite]
      · intro k hk hcontra
        exact absurd (shardFilename_inj name date i k hcontra) (by omega)
    | succ j2 =>
      have hlt : j2 < cs.length := by
        simp only [List.length_cons] at hj
        omega
      have := ih (i + 1) (stack ++ [shardFilename name date i])
        (fsWrite (shardFilename name date i) c fs) j2 hlt
      have harith : i + (j2 + 1) = (i + 1) + j2 := by omega
      rw [harith]
      simpa using this

/-! ## C5: merging -/

/-- C5 (amended): with at least two remaining lines in the first shard,
the merge is the second remaining line of the first shard followed by the
lines from index 2 of every shard including the first, in order; one shard
merges to its data lines with the header prepended once; a FIRST shard
with fewer than two remaining lines is a fatal format error.  (A later
shard with fewer than two lines is not an error: see the counterexample.) -/
theorem C5_combine_data_files_spec (first : Content) (rest : List Content)
    (h2 : 2 ≤ (get_filtered_lines first).length) :
    combine_data_files (first :: rest)
      = .ok ((get_filtered_lines first).getD 1 []
          :: (first :: rest).flatMap (fun f => (get_filtered_lines f).drop 2))
    ∧ combine_data_files [first]
      = .ok ((get_filtered_lines first).getD 1 [] :: (get_filtered_lines first).drop 2)
    ∧ (∀ bad : Content, (get_filtered_lines bad).length < 2 →
        combine_data_files (bad :: rest) = .formatError) := by
  refine ⟨?_, ?_, ?_⟩
  · simp only [combine_data_files]
    rw [if_neg (by omega)]
  · simp only [combine_data_files]
    rw [if_neg (by omega)]
    simp
  · intro bad hb
    simp only [combine_data_files]
    rw [if_pos hb]

/-- Witness for C5 on a two-shard batch. -/
theorem C5_witness :
    combine_data_files [[chars "m", chars "h", chars "d1"],
        [chars "#c", chars "x", chars "y", chars "z"]]
      = .ok [chars "h", chars "d1", chars "z"]
    ∧ combine_data_files [[chars "m", chars "h", chars "d1"]]
      = .ok [chars "h", chars "d1"] := by
  have h := C5_combine_data_files_spec [chars "m", chars "h", chars "d1"]
    [[chars "#c", chars "x", chars "y", chars "z"]] (by decide)
  exact ⟨h.1.trans (by decide), h.2.1.trans (by decide)⟩

/-- Counterexample to C5 as stated: the second shard keeps fewer than two
lines, yet the merge succeeds instead of failing for the whole batch. -/
theorem C5_counterexample :
    (get_filtered_lines [chars "x"]).length < 2
    ∧ combine_data_files [[chars "m", chars "h", chars "d1"], [chars "x"]]
        = .ok [chars "h", chars "d1"] := by
  decide

/-! ## C6: cleanup on failure -/

/-- C6 (amended): a fetch failure at any point of the download loop leaves
zero shard files for the query and surfaces as DataFetchException — shown
for a failure after any number of successful downloads, and concretely for
the second of three; but a merging failure does not delete the downloaded
shards in the fetcher.py pipeline: the written shard file survives the
format error. -/
theorem C6_download_cleanup (name date : List Char) (good : List Content)
    (rest : List (Option Content)) :
    download_urls name date (good.map some ++ none :: rest) [] = (.error .dataFetch, [])
    ∧ download_urls name date [some [chars "a"], none, some [chars "c"]] []
        = (.error .dataFetch, [])
    ∧ (shardFilename (chars "n") (chars "d") 0, [chars "x"])
        ∈ (fetcher_tail (chars "n") (chars "d") [some [chars "x"]]).2 := by
  refine ⟨?_, ?_, by decide⟩
  · exact download_urls_go_fail name date good rest 0 [] [] (by intro e he; simp at he)
  · have h := download_urls_go_fail name date [[chars "a"]] [some [chars "c"]] 0 [] []
      (by intro e he; simp at he)
    simpa [download_urls] using h

/-- Counterexample to C6 as stated: a merging failure (single shard with a
single line) propagates while the shard file written for the query is still
on disk. -/
theorem C6_counterexample :
    fetcher_tail (chars "n") (chars "d") [some [chars "x"]]
      = (.error .mergeFormat,
          [(outputFilename (chars "n") (chars "d"), []),
           (shardFilename (chars "n") (chars "d") 0, [chars "x"])]) := by
  decide

/-! ## C7: input validation -/

/-- C7 (amended): a category outside the catalog raises
InvalidFinancialCategoryException and a timespan other than month or day
raises InvalidTimespanException, both before any request is built; C99
always raises; but the date is never validated in fetcher.py — any date
string whatsoever reaches the issued request. -/
theorem C7_validation_spec (cat ts date : List Char) :
    ((FINANCIAL_DATA_TYPE_MAP.any (fun p => p.1 == cat)) = false →
      fetcher_get_financial_data_request cat ts date = .error .invalidFinancialCategory)
    ∧ ((FINANCIAL_DATA_TYPE_MAP.any (fun p => p.1 == cat)) = true →
        (ts == chars "month" || ts == chars "day") = false →
        fetcher_get_financial_data_request cat ts date = .error .invalidTimespan)
    ∧ ((FINANCIAL_DATA_TYPE_MAP.any (fun p => p.1 == cat)) = true →
        (ts == chars "month" || ts == chars "day") = true →
        fetcher_get_financial_data_request cat ts date = .ok ⟨cat, ts, date⟩)
    ∧ (∀ ts2 date2 : List Char,
        fetcher_get_financial_data_request (chars "C99") ts2 date2
          = .error .invalidFinancialCategory) := by
  refine ⟨?_, ?_, ?_, ?_⟩
  · intro h
    simp [fetcher_get_financial_data_request, h]
  · intro h ht
    simp [fetcher_get_financial_data_request, h, ht]
  · intro h ht
    simp [fetcher_get_financial_data_request, h, ht]
  · intro ts2 date2
    have h99 : (FINANCIAL_DATA_TYPE_MAP.any (fun p => p.1 == chars "C99")) = false := by
      decide
    simp [fetcher_get_financial_data_request, h99]

/-- Witness for C7: a valid category and timespan issue the request, C99
is rejected. -/
theorem C7_witness :
    fetcher_get_financial_data_request (chars "C01") (chars "day") (chars "2025-01-01")
      = .ok ⟨chars "C01", chars "day", chars "2025-01-01"⟩
    ∧ fetcher_get_financial_data_request (chars "C99") (chars "day") (chars "2025-01-01")
      = .error .invalidFinancialCategory := by
  have h := C7_validation_spec (chars "C01") (chars "day") (chars "2025-01-01")
  exact ⟨h.2.2.1 (by decide) (by decide), h.2.2.2 (chars "day") (chars "2025-01-01")⟩

/-- Counterexample to C7 as stated: a date that parses under no format at
all is accepted and the request is issued, with no typed input error. -/
theorem C7_counterexample :
    fetcher_get_financial_data_request (chars "C01") (chars "day") (chars "9999-99-GARBAGE")
      = .ok ⟨chars "C01", chars "day", chars "9999-99-GARBAGE"⟩ := by
  decide

/-! ## C8: the empty download list -/

/-- C8: on an empty downloadUrlList the fetcher.py pipeline does fail — the
None returned by combine_data_files flows into order_by_time, whose
polars.read_csv(None) raises TypeError — while the cinema_client.py
pipeline returns the empty result the claim describes. -/
theorem C8_empty_download_list (name date : List Char) :
    fetcher_tail name date [] = (.error .noneCrash, [])
    ∧ cinema_tail name date [] = (.ok (chars ""), []) := by
  exact ⟨rfl, rfl⟩

/-! ## C10: the shard file paths -/

/-- C10: the shard path for link i embeds a line break (and indentation)
from the multi-line f-string, differs from the single-line path, and the
paths returned, tracked and written are exactly these, indexed 0, 1, ... in
the vendor's order. -/
theorem C10_shard_paths (name date : List Char) (contents : List Content) (i : Nat) :
    shardFilename name date i
      = name ++ chars "/" ++ ('\n' :: List.replicate 23 ' ') ++ name
          ++ ('\n' :: List.replicate 23 ' ') ++ chars "_(" ++ date ++ chars ")_part"
          ++ natDecimal i ++ chars ".csv"
    ∧ '\n' ∈ shardFilename name date i
    ∧ shardFilename name date i ≠ singleLineShardPath name date i
    ∧ (download_urls name date (contents.map some) []).1
        = .ok ((List.range contents.length).map (shardFilename name date))
    ∧ (∀ j, j < contents.length →
        (shardFilename name date j, contents.getD j [])
          ∈ (download_urls name date (contents.map some) []).2) := by
  refine ⟨rfl, ?_, ?_, ?_, ?_⟩
  · simp [shardFilename, fileIndent]
  · intro h
    have hl := congrArg List.length h
    simp [shardFilename, singleLineShardPath, fileIndent] at hl
    omega
  · have h := download_urls_go_ok name date contents 0 [] []
    rw [download_urls, h, List.range_eq_range']
    simp
  · intro j hj
    have h := download_urls_go_writes name date contents 0 [] [] j hj
    simpa using h

/-- Witness for C10 on one downloaded link. -/
theorem C10_witness :
    (shardFilename (chars "n") (chars "d") 0, [chars "x"])
      ∈ (download_urls (chars "n") (chars "d") [some [chars "x"]] []).2
    ∧ (download_urls (chars "n") (chars "d") [some [chars "x"]] []).1
      = .ok [shardFilename (chars "n") (chars "d") 0] := by
  have h := C10_shard_paths (chars "n") (chars "d") [[chars "x"]] 0
  refine ⟨h.2.2.2.2 0 (by decide), ?_⟩
  have h4 := h.2.2.2.1
  simpa using h4

/-! ## C9: order_by_time (src/utility/helpers.py lines 282 to 323).
The function reads the CSV, replaces the timestamp column by its parse
under the fixed format with strict=False (unparseable values become null),
sorts ascending (polars places nulls first), formats the column back and
rewrites the file with every value quoted as a string.  The model works on
the data rows directly; the strict chrono format with zero-padded
components is modelled by parseTS and formatDT; null serializes to the
empty string, as a null lands in the written CSV. -/

/-- A parsed date-time value. -/
structure DT where
  y : Nat
  mo : Nat
  d : Nat
  h : Nat
  mi : Nat
  s : Nat
deriving DecidableEq

/-- A decimal digit character. -/
def isDigit (c : Char) : Prop := 48 ≤ c.toNat ∧ c.toNat ≤ 57

instance : DecidablePred isDigit := fun c => by unfold isDigit; infer_instance

/-- Digit value of a character. -/
def dv (c : Char) : Nat := c.toNat - 48

/-- Days of a month in the proleptic Gregorian calendar. -/
def daysInMonth (y mo : Nat) : Nat :=
  if mo = 2 then (if y % 4 = 0 ∧ (y % 100 ≠ 0 ∨ y % 400 = 0) then 29 else 28)
  else if mo = 4 ∨ mo = 6 ∨ mo = 9 ∨ mo = 11 then 30
  else 31

/-- The calendar validity the parser enforces. -/
def validDT (t : DT) : Prop :=
  1 ≤ t.mo ∧ t.mo ≤ 12 ∧ 1 ≤ t.d ∧ t.d ≤ daysInMonth t.y t.mo
    ∧ t.h ≤ 23 ∧ t.mi ≤ 59 ∧ t.s ≤ 59 ∧ t.y ≤ 9999

instance : DecidablePred validDT := fun t => by unfold validDT; infer_instance

/-- Strict parse of the chrono format used by order_by_time; anything that
does not match yields none, which polars treats as null. -/
def parseTS : List Char → Option DT
  | [y1, y2, y3, y4, c1, m1, m2, c2, d1, d2, c3, h1, h2, c4, n1, n2, c5, s1, s2] =>
    if c1 = '-' ∧ c2 = '-' ∧ c3 = ' ' ∧ c4 = ':' ∧ c5 = ':'
        ∧ isDigit y1 ∧ isDigit y2 ∧ isDigit y3 ∧ isDigit y4
        ∧ isDigit m1 ∧ isDigit m2 ∧ isDigit d1 ∧ isDigit d2
        ∧ isDigit h1 ∧ isDigit h2 ∧ isDigit n1 ∧ isDigit n2
        ∧ isDigit s1 ∧ isDigit s2 then
      if validDT ⟨1000 * dv y1 + 100 * dv y2 + 10 * dv y3 + dv y4,
          10 * dv m1 + dv m2, 10 * dv d1 + dv d2,
          10 * dv h1 + dv h2, 10 * dv n1 + dv n2, 10 * dv s1 + dv s2⟩ then
        some ⟨1000 * dv y1 + 100 * dv y2 + 10 * dv y3 + dv y4,
          10 * dv m1 + dv m2, 10 * dv d1 + dv d2,
          10 * dv h1 + dv h2, 10 * dv n1 + dv n2, 10 * dv s1 + dv s2⟩
      else none
    else none
  | _ => none

/-- Four zero-padded decimal digits. -/
def fourDigits (n : Nat) : List Char :=
  [digitChar (n / 1000 % 10), digitChar (n / 100 % 10), digitChar (n / 10 % 10),
   digitChar (n % 10)]

/-- Two zero-padded decimal digits. -/
def twoDigits (n : Nat) : List Char := [digitChar (n / 10 % 10), digitChar (n % 10)]

/-- Formatting of a date-time back to the same format (dt.strftime). -/
def formatDT (t : DT) : List Char :=
  fourDigits t.y ++ ['-'] ++ twoDigits t.mo ++ ['-'] ++ twoDigits t.d ++ [' ']
    ++ twoDigits t.h ++ [':'] ++ twoDigits t.mi ++ [':'] ++ twoDigits t.s

/-- Reserialization of the parsed column value: null becomes empty. -/
def serializeTS : Option DT → List Char
  | none => []
  | some t => formatDT t

/-- An order-preserving encoding of the sort key: null strictly below every
parsed date-time. -/
def ordKey : Option DT → Nat
  | none => 0
  | some t => 1 + (((((t.y * 13 + t.mo) * 32 + t.d) * 24 + t.h) * 60 + t.mi) * 60 + t.s)

/-- The timestamp cell of a row. -/
def getCol (row : List Line) (col : Nat) : Line := row.getD col []

/-- The ascending comparison polars sorts by: parsed keys, nulls first. -/
def rowLe (col : Nat) (r1 r2 : List Line) : Prop :=
  ordKey (parseTS (getCol r1 col)) ≤ ordKey (parseTS (getCol r2 col))

instance (col : Nat) : DecidableRel (rowLe col) := fun r1 r2 =>
  inferInstanceAs (Decidable (_ ≤ _))

instance (col : Nat) : IsTotal (List Line) (rowLe col) := ⟨fun _ _ => Nat.le_total _ _⟩

instance (col : Nat) : IsTrans (List Line) (rowLe col) := ⟨fun _ _ _ => Nat.le_trans⟩

/-- order_by_time over the data rows: parse the timestamp column, sort
ascending with nulls first, and write every value back as a string. -/
def order_by_time (rows : List (List Line)) (col : Nat) : List (List Line) :=
  (List.insertionSort (rowLe col) rows).map
    (fun r => r.set col (serializeTS (parseTS (getCol r col))))

/-- The date-time order spelled out lexicographically. -/
def dtLe (a b : DT) : Prop :=
  a.y < b.y ∨ (a.y = b.y ∧ (a.mo < b.mo ∨ (a.mo = b.mo ∧ (a.d < b.d ∨ (a.d = b.d
    ∧ (a.h < b.h ∨ (a.h = b.h ∧ (a.mi < b.mi ∨ (a.mi = b.mi ∧ a.s ≤ b.s)))))))))

theorem daysInMonth_le_31 (y mo : Nat) : daysInMonth y mo ≤ 31 := by
  unfold daysInMonth
  split_ifs <;> omega

theorem parseTS_valid (v : List Char) (t : DT) (h : parseTS v = some t) : validDT t := by
  rw [parseTS.eq_def] at h
  split at h
  · split_ifs at h with h1 h2
    injection h with h3
    exact h3 ▸ h2
  · exact Option.noConfusion h

theorem parseTS_formatDT (t : DT) (hv : validDT t) : parseTS (formatDT t) = some t := by
  obtain ⟨y, mo, d, h, mi, s⟩ := t
  unfold validDT at hv
  dsimp only at hv
  obtain ⟨hv1, hv2, hv3, hv4, hv5, hv6, hv7, hv8⟩ := hv
  have hdm := daysInMonth_le_31 y mo
  have hdig : ∀ k, k < 10 → isDigit (digitChar k) := by
    intro k hk
    unfold isDigit
    rw [digitChar_toNat k hk]
    omega
  have hdvm : ∀ n : Nat, dv (digitChar (n % 10)) = n % 10 := by
    intro n
    unfold dv
    rw [digitChar_toNat _ (Nat.mod_lt _ (by omega))]
    omega
  have ey : 1000 * (y / 1000 % 10) + 100 * (y / 100 % 10) + 10 * (y / 10 % 10) + y % 10
      = y := by omega
  have emo : 10 * (mo / 10 % 10) + mo % 10 = mo := by omega
  have ed : 10 * (d / 10 % 10) + d % 10 = d := by omega
  have eh : 10 * (h / 10 % 10) + h % 10 = h := by omega
  have emi : 10 * (mi / 10 % 10) + mi % 10 = mi := by omega
  have es : 10 * (s / 10 % 10) + s % 10 = s := by omega
  simp only [formatDT, fourDigits, twoDigits, List.cons_append, List.nil_append]
  simp only [parseTS]
  split_ifs with hA hB
  · simp only [hdvm, ey, emo, ed, eh, emi, es]
  · exfalso
    apply hB
    unfold validDT
    dsimp only
    simp only [hdvm, ey, emo, ed, eh, emi, es]
    exact ⟨hv1, hv2, hv3, hv4, hv5, hv6, hv7, hv8⟩
  · exfalso
    apply hA
    refine ⟨?_, ?_, ?_, ?_, ?_, ?_, ?_, ?_, ?_, ?_, ?_, ?_, ?_, ?_, ?_, ?_, ?_, ?_, ?_⟩ <;>
      first
        | trivial
        | exact hdig _ (Nat.mod_lt _ (by omega))

theorem parseTS_serializeTS (v : Line) :
    parseTS (serializeTS (parseTS v)) = parseTS v := by
  cases h : parseTS v with
  | none => rfl
  | some t =>
    simp only [serializeTS]
    exact parseTS_formatDT t (parseTS_valid v t h)

theorem getD_set_same (r : List Line) (col : Nat) (x : Line) :
    (r.set col x).getD col [] = if col < r.length then x else r.getD col [] := by
  induction r generalizing col with
  | nil => simp
  | cons a as ih =>
    cases col with
    | zero => simp
    | succ c =>
      simp only [List.set_cons_succ, List.getD_cons_succ, List.length_cons, ih]
      split_ifs with h1 h2 h3 <;> first | rfl | omega

theorem key_after_reserialize (r : List Line) (col : Nat) :
    parseTS (getCol (r.set col (serializeTS (parseTS (getCol r col)))) col)
      = parseTS (getCol r col) := by
  unfold getCol
  rw [getD_set_same]
  split
  · exact parseTS_serializeTS _
  · rfl

theorem ordKey_le_iff_dtLe (a b : DT) (ha : validDT a) (hb : validDT b) :
    (ordKey (some a) ≤ ordKey (some b) ↔ dtLe a b) := by
  obtain ⟨ay, amo, ad, ah, ami, as2⟩ := a
  obtain ⟨by2, bmo, bd, bh, bmi, bs⟩ := b
  unfold validDT at ha hb
  dsimp only at ha hb
  obtain ⟨ha1, ha2, ha3, ha4, ha5, ha6, ha7, ha8⟩ := ha
  obtain ⟨hb1, hb2, hb3, hb4, hb5, hb6, hb7, hb8⟩ := hb
  have hda := daysInMonth_le_31 ay amo
  have hdb := daysInMonth_le_31 by2 bmo
  simp only [ordKey, dtLe]
  constructor <;> intro h <;> omega

/-- C9: order_by_time keeps every row (as a permutation of the rows with
the timestamp column reserialized, nulls becoming the empty string), emits
them ascending by the parsed key with nulls strictly first, never fails on
an unparseable value, and the key order on valid date-times is exactly the
lexicographic date-time order. -/
theorem C9_order_by_time_spec (rows : List (List Line)) (col : Nat) :
    (order_by_time rows col).Perm
        (rows.map (fun r => r.set col (serializeTS (parseTS (getCol r col)))))
    ∧ List.Pairwise (fun r1 r2 =>
        ordKey (parseTS (getCol r1 col)) ≤ ordKey (parseTS (getCol r2 col)))
        (order_by_time rows col)
    ∧ List.Pairwise (fun r1 r2 =>
        parseTS (getCol r2 col) = none → parseTS (getCol r1 col) = none)
        (order_by_time rows col)
    ∧ (∀ v t, parseTS v = some t → validDT t)
    ∧ (∀ t1 t2 : DT, validDT t1 → validDT t2 →
        (ordKey (some t1) ≤ ordKey (some t2) ↔ dtLe t1 t2))
    ∧ (∀ t : DT, ordKey none < ordKey (some t)) := by
  have hsorted : List.Pairwise (rowLe col) (List.insertionSort (rowLe col) rows) :=
    List.sorted_insertionSort (rowLe col) rows
  have hmain : List.Pairwise (fun r1 r2 =>
      ordKey (parseTS (getCol r1 col)) ≤ ordKey (parseTS (getCol r2 col)))
      (order_by_time rows col) := by
    unfold order_by_time
    rw [List.pairwise_map]
    refine hsorted.imp ?_
    intro a b hab
    rw [key_after_reserialize, key_after_reserialize]
    exact hab
  refine ⟨?_, hmain, ?_, fun v t h => parseTS_valid v t h,
    fun t1 t2 h1 h2 => ordKey_le_iff_dtLe t1 t2 h1 h2, ?_⟩
  · unfold order_by_time
    exact List.Perm.map _ (List.perm_insertionSort (rowLe col) rows)
  · refine hmain.imp ?_
    intro a b hab hb
    rw [hb] at hab
    cases hk : parseTS (getCol a col) with
    | none => rfl
    | some t =>
      rw [hk] at hab
      simp [ordKey] at hab
  · intro t
    simp [ordKey]

/-- Witness for C9: an out-of-order file with one unparseable timestamp is
re-emitted ascending, the unparseable row first with an emptied cell. -/
theorem C9_witness :
    order_by_time [[chars "2025-06-03 15:22:46"], [chars "notatime"],
        [chars "2024-01-01 00:00:00"]] 0
      = [[chars ""], [chars "2024-01-01 00:00:00"], [chars "2025-06-03 15:22:46"]]
    ∧ validDT ⟨2024, 1, 1, 0, 0, 0⟩
    ∧ (ordKey (some ⟨2024, 1, 1, 0, 0, 0⟩) ≤ ordKey (some ⟨2025, 6, 3, 15, 22, 46⟩)
        ↔ dtLe ⟨2024, 1, 1, 0, 0, 0⟩ ⟨2025, 6, 3, 15, 22, 46⟩) := by
  have h := C9_order_by_time_spec [[chars "2025-06-03 15:22:46"], [chars "notatime"],
    [chars "2024-01-01 00:00:00"]] 0
  refine ⟨by decide, ?_, ?_⟩
  · exact h.2.2.2.1 (chars "2024-01-01 00:00:00") ⟨2024, 1, 1, 0, 0, 0⟩ (by decide)
  · exact h.2.2.2.2.1 _ _ (by decide) (by decide)

end LarkDB
